import Mathlib

/-!
Shallow embedding of `atroposlib/cli/sft.py` (the SFT data grabber CLI).

Modelling conventions:
* Python strings are `List Char`; Python numbers carried by scores and the
  threshold are `ℚ` (the code only compares and subtracts them); counters and
  configuration integers are `ℤ`.
* Python exceptions are modelled with `Except PyErr` / explicit error events.
* Network activity and file activity of the orchestrator are modelled as an
  event trace (`SftEvent`): each HTTP request, sleep, file open, record write,
  progress-bar update and raised exception appears as one event, in program
  order.  The remote service is modelled by the list of its successive
  responses to the `/batch` endpoint (`none` = `{"batch": null}`).
* `sorted(..., key=lambda pair: pair[0], reverse=True)` is a stable sort by
  score, descending.  It is embedded as `List.insertionSort` with the relation
  `fun a b => b.1 ≤ a.1`, which is also a stable descending sort by the first
  component; a stable sort is extensionally determined by the key order, so
  this is the same function as CPython's Timsort-based `sorted`.
-/

/-- Python exceptions that the modelled code can raise. -/
inductive PyErr : Type where
  | valueError
  | indexError
deriving DecidableEq

deriving instance DecidableEq for Except

/-- Fuel-indexed form of the inner while loop of `find_common_prefix` (sft.py
lines 28-32): repeatedly drop the last character of the candidate until it is
a prefix of `s`.  The loop runs at most `p.length` times, so running it with
fuel `p.length` (see `shrinkPre`) is the loop itself; the explicit fuel only
makes the recursion structural.  The Python early `return ""` once the
candidate becomes empty is behaviourally the same as continuing with `""`,
since `""` is a prefix of every string. -/
def shrinkPreAux (s : List Char) : Nat → List Char → List Char
  | 0, p => p
  | n + 1, p => if p.isPrefixOf s then p else shrinkPreAux s n p.dropLast

/-- The while loop of `find_common_prefix`: shrink `p` until it is a prefix of
`s`. -/
def shrinkPre (s : List Char) (p : List Char) : List Char :=
  shrinkPreAux s p.length p

/-- Model of `find_common_prefix` (sft.py lines 13-33): start from the first
string and shrink against each remaining string in turn. -/
def find_common_prefix (strings : List (List Char)) : List Char :=
  match strings with
  | [] => []
  | first :: rest => rest.foldl (fun pre s => shrinkPre s pre) first

/-- Fuel-indexed form of CPython `str.split(sep)` for a non-empty separator:
scan left to right, cutting at each (non-overlapping) occurrence of `sep`.
Each step consumes at least one character, so fuel `s.length` (see `splitGo`)
runs the scan to completion; the explicit fuel only makes the recursion
structural. -/
def splitGoAux (sep : List Char) : Nat → List Char → List (List Char)
  | 0, _ => [[]]
  | n + 1, s =>
    if sep ≠ [] ∧ sep.isPrefixOf s then
      [] :: splitGoAux sep n (s.drop sep.length)
    else
      match s with
      | [] => [[]]
      | c :: rest =>
        match splitGoAux sep n rest with
        | [] => [[c]]
        | seg :: segs => (c :: seg) :: segs

/-- CPython `str.split(sep)` scan for a non-empty separator. -/
def splitGo (sep : List Char) (s : List Char) : List (List Char) :=
  splitGoAux sep s.length s

/-- Model of `chat.split(prefix)`: Python raises `ValueError: empty separator`
when the separator is empty. -/
def pySplit (s sep : List Char) : Except PyErr (List (List Char)) :=
  if sep = [] then Except.error PyErr.valueError
  else Except.ok (splitGo sep s)

/-- Model of Python list indexing `l[i]` for `i ≥ 0`: `IndexError` when out of
range. -/
def pyIndex {α : Type} (l : List α) (i : Nat) : Except PyErr α :=
  match l.get? i with
  | some a => Except.ok a
  | none => Except.error PyErr.indexError

/-- Model of `chat.split(prefix)[1]` (sft.py line 130). -/
def splitCompletion (chat pre : List Char) : Except PyErr (List Char) := do
  let parts ← pySplit chat pre
  pyIndex parts 1

/-- Characters of `s` strictly before the first occurrence of `sep` in `s`
(all of `s` when `sep` does not occur).  Used to state what
`chat.split(prefix)[1]` actually returns. -/
def upToNextOcc (sep : List Char) : List Char → List Char
  | [] => []
  | c :: rest => if sep.isPrefixOf (c :: rest) then [] else c :: upToNextOcc sep rest

/-- Output record of `grab_group_data`: either `{"messages": x, "score": s}`
(raw-structure mode) or `{"prefix": p, "completion": c, "score": s}`
(decoded-text mode).  `μ` is the opaque type of raw message structures. -/
inductive SftRecord (μ : Type) : Type where
  | messages (m : μ) (score : ℚ)
  | textCompletion (pre completion : List Char) (score : ℚ)
deriving DecidableEq

/-- Score field of a record (`x["score"]` in sft.py lines 146 and 153). -/
def SftRecord.score {μ : Type} : SftRecord μ → ℚ
  | .messages _ s => s
  | .textCompletion _ _ s => s

/-- One group of a batch, as consumed by `grab_group_data`: the
`datagroup["messages"]`, `datagroup["tokens"]` and `datagroup["scores"]`
fields. -/
structure DataGroup (μ : Type) : Type where
  messages : List μ
  tokens : List (List Nat)
  scores : List ℚ
deriving DecidableEq

/-- `min(scores) if scores else 0` (sft.py line 149). -/
def minScoreOf (scores : List ℚ) : ℚ :=
  match scores.min? with
  | some m => m
  | none => 0

/-- Lines 133-142 of sft.py: zip scores with the chats (Python `zip` truncates
to the shorter list), stable-sort descending by score, and build the record of
the mode's shape (`mkRecord`). -/
def sortRecords {μ χ : Type} (mkRecord : ℚ → χ → SftRecord μ)
    (scores : List ℚ) (chats : List χ) : List (SftRecord μ) :=
  (List.insertionSort (fun a b => b.1 ≤ a.1) (scores.zip chats)).map
    (fun p => mkRecord p.1 p.2)

/-- Lines 145-146 of sft.py: unless negative scores are allowed, keep only the
records with `x["score"] > 0`. -/
def filterNeg {μ : Type} (allow_negative_scores : Bool)
    (sorted_chats : List (SftRecord μ)) : List (SftRecord μ) :=
  if allow_negative_scores then sorted_chats
  else sorted_chats.filter (fun x => decide (0 < SftRecord.score x))

/-- Lines 147-154 of sft.py: when a positive threshold is configured, keep
only the records whose score exceeds the group minimum by more than the
threshold. -/
def filterMinDiff {μ : Type} (minimum_score_diff_max_min : ℚ)
    (scores : List ℚ) (sorted_chats : List (SftRecord μ)) :
    List (SftRecord μ) :=
  if 0 < minimum_score_diff_max_min then
    sorted_chats.filter
      (fun x => decide (minimum_score_diff_max_min <
        SftRecord.score x - minScoreOf scores))
  else sorted_chats

/-- Shared tail of `grab_group_data` (sft.py lines 132-157): sort, filter, and
keep the first `save_top_n_per_group` records. -/
def selectChats {μ χ : Type} (mkRecord : ℚ → χ → SftRecord μ)
    (scores : List ℚ) (chats : List χ)
    (allow_negative_scores : Bool) (minimum_score_diff_max_min : ℚ)
    (save_top_n_per_group : Nat) : List (SftRecord μ) :=
  (filterMinDiff minimum_score_diff_max_min scores
    (filterNeg allow_negative_scores
      (sortRecords mkRecord scores chats))).take save_top_n_per_group

/-- Lines 127-130 of sft.py (decoded-text mode): decode every token sequence,
compute the common prefix of the decoded texts, and split each text into
`(prefix, chat.split(prefix)[1])`; the split can raise. -/
def decodedChats (tok : List Nat → List Char) (tokens : List (List Nat)) :
    Except PyErr (List (List Char × List Char)) :=
  let texts := tokens.map tok
  let pre := find_common_prefix texts
  texts.mapM (fun chat => ( splitCompletion chat pre).map (fun c => (pre, c)))

/-- Model of `grab_group_data` (sft.py lines 93-157).  `tok` is the opaque
tokenizer `decode` capability.  Raw-structure mode uses the messages as-is;
decoded-text mode decodes and splits via `decodedChats`, which can raise
(`Except.error`). -/
def grab_group_data {μ : Type} (tok : List Nat → List Char)
    (datagroup : DataGroup μ) (save_messages : Bool)
    (save_top_n_per_group : Nat) (allow_negative_scores : Bool)
    (minimum_score_diff_max_min : ℚ) : Except PyErr (List (SftRecord μ)) :=
  if save_messages then
    Except.ok (selectChats (fun sc m => SftRecord.messages m sc)
      datagroup.scores datagroup.messages
      allow_negative_scores minimum_score_diff_max_min save_top_n_per_group)
  else do
    let chats ← decodedChats tok datagroup.tokens
    Except.ok (selectChats (fun sc x => SftRecord.textCompletion x.1 x.2 sc)
      datagroup.scores chats
      allow_negative_scores minimum_score_diff_max_min save_top_n_per_group)

/-- Body of the POST `/register` request (sft.py lines 59-68). -/
structure RegisterBody : Type where
  wandb_group : String
  wandb_project : String
  batch_size : ℤ
  max_token_len : ℤ
  checkpoint_dir : String
  save_checkpoint_interval : ℤ
  starting_step : ℤ
  num_steps : ℤ
deriving DecidableEq

/-- Observable actions of the data grabber, in program order. -/
inductive SftEvent (μ : Type) : Type where
  | getResetData
  | postRegister (body : RegisterBody)
  | raiseValueError
  | openFile (mode : String)
  | getBatch
  | sleepOne
  | writeRecord (r : SftRecord μ)
  | progressUpdate (d : ℤ)
  | raiseGroupError (e : PyErr)
deriving DecidableEq

/-- Kind of an event, forgetting its payload. -/
inductive SftEventKind : Type where
  | resetData
  | register
  | valueError
  | openFile
  | getBatch
  | sleepOne
  | writeRecord
  | progressUpdate
  | groupError
deriving DecidableEq

/-- Forget an event's payload. -/
def SftEvent.kind {μ : Type} : SftEvent μ → SftEventKind
  | .getResetData => .resetData
  | .postRegister _ => .register
  | .raiseValueError => .valueError
  | .openFile _ => .openFile
  | .getBatch => .getBatch
  | .sleepOne => .sleepOne
  | .writeRecord _ => .writeRecord
  | .progressUpdate _ => .progressUpdate
  | .raiseGroupError _ => .groupError

/-- Model of `register_to_api` (sft.py lines 36-71): one GET `/reset_data`,
then one POST `/register` whose body is built exactly as in the source. -/
def register_to_api {μ : Type}
    (group_size max_token_len num_steps tasks_per_step : ℤ) :
    List (SftEvent μ) :=
  [SftEvent.getResetData,
   SftEvent.postRegister
     { wandb_group := "test"
       wandb_project := "test"
       batch_size := group_size * tasks_per_step
       max_token_len := max_token_len
       checkpoint_dir := "checkpoints"
       save_checkpoint_interval := 10
       starting_step := 0
       num_steps := num_steps * 2 }]

/-- Model of `check_for_batch` (sft.py lines 74-90) against a finite stream of
service responses (`none` = `{"batch": null}`).  Returns the emitted events
(one `getBatch` per request, one `sleepOne` after each null response) and, when
a non-null batch arrives, that batch together with the unconsumed rest of the
stream.  An exhausted stream (`none` result) models the poller still blocking. -/
def check_for_batch {μ : Type} :
    List (Option (List (DataGroup μ))) →
    List (SftEvent μ) ×
      Option (List (DataGroup μ) × List (Option (List (DataGroup μ))))
  | [] => ([], none)
  | none :: rest =>
    let r := check_for_batch rest
    (SftEvent.getBatch :: SftEvent.sleepOne :: r.1, r.2)
  | some b :: rest => ([SftEvent.getBatch], some (b, rest))

/-- Per-batch record collection of the inner `grab_batch` closure (sft.py
lines 198-213): concatenate the per-group selections in order; the second
component reports the exception if `grab_group_data` raised on some group
(records of earlier groups are already written at that point). -/
def grab_batch_records {μ : Type} (tok : List Nat → List Char)
    (save_messages : Bool) (save_top_n_per_group : Nat)
    (allow_negative_scores : Bool) (minimum_score_diff_max_min : ℚ) :
    List (DataGroup μ) → List (SftRecord μ) × Option PyErr
  | [] => ([], none)
  | g :: gs =>
    match grab_group_data tok g save_messages save_top_n_per_group
        allow_negative_scores minimum_score_diff_max_min with
    | Except.error e => ([], some e)
    | Except.ok items =>
      let r := grab_batch_records tok save_messages save_top_n_per_group
        allow_negative_scores minimum_score_diff_max_min gs
      (items ++ r.1, r.2)

/-- Run configuration of `sft_data_grabber` (the CLI arguments that the event
trace depends on; the output path, API URL and tokenizer id are abstracted by
`pathExists` and the `tok` capability). -/
structure SftConfig : Type where
  group_size : ℤ
  max_token_len : ℤ
  save_messages : Bool
  save_top_n_per_group : Nat
  num_seqs_to_save : ℤ
  allow_negative_scores : Bool
  minimum_score_diff_max_min : ℚ
  append_to_previous : Bool
  tasks_per_step : ℤ

/-- The while loop of `sft_data_grabber` (sft.py lines 236-239) together with
the poll loop of `check_for_batch` which it drives.  The poll-retry loop is
inlined into the recursion so that each recursive step consumes exactly one
service response; this is the same trace, because the loop condition
`total_count < num_seqs_to_save` does not change while polling.  Returns the
events of the loop and the final `total_count`. -/
def sftLoop {μ : Type} (cfg : SftConfig) (tok : List Nat → List Char) :
    List (Option (List (DataGroup μ))) → ℤ → List (SftEvent μ) × ℤ
  | responses, total_count =>
    if total_count < cfg.num_seqs_to_save then
      match responses with
      | [] => ([], total_count)
      | none :: rest =>
        let r := sftLoop cfg tok rest total_count
        (SftEvent.getBatch :: SftEvent.sleepOne :: r.1, r.2)
      | some batch :: rest =>
        let br := grab_batch_records tok cfg.save_messages
          cfg.save_top_n_per_group cfg.allow_negative_scores
          cfg.minimum_score_diff_max_min batch
        let writeEvs := br.1.map SftEvent.writeRecord
        match br.2 with
        | some e =>
          (SftEvent.getBatch :: (writeEvs ++ [SftEvent.raiseGroupError e]),
           total_count)
        | none =>
          let batch_count : ℤ := br.1.length
          let total2 := total_count + batch_count
          let next := sftLoop cfg tok rest total2
          (SftEvent.getBatch ::
             (writeEvs ++
               SftEvent.progressUpdate
                 (min batch_count (cfg.num_seqs_to_save - total2)) :: next.1),
           next.2)
    else ([], total_count)

/-- Model of `sft_data_grabber` (sft.py lines 160-239) as an event trace plus
the final `total_count`.  `pathExists` models `os.path.exists(filepath)`.
Note the source registers with `num_steps=total_count`, where `total_count`
was just initialised to 0, and only afterwards checks the output path. -/
def sft_data_grabber {μ : Type} (cfg : SftConfig) (pathExists : Bool)
    (tok : List Nat → List Char)
    (responses : List (Option (List (DataGroup μ)))) :
    List (SftEvent μ) × ℤ :=
  let total_count : ℤ := 0
  let regEvs : List (SftEvent μ) := register_to_api cfg.group_size
    cfg.max_token_len total_count cfg.tasks_per_step
  if pathExists && !cfg.append_to_previous then
    (regEvs ++ [SftEvent.raiseValueError], total_count)
  else
    let file_mode := if cfg.append_to_previous && pathExists then "a" else "w"
    let rest := sftLoop cfg tok responses total_count
    (regEvs ++ SftEvent.openFile file_mode :: rest.1, rest.2)

/-- Progress-bar increments reported in a trace, in order. -/
def progressDeltas {μ : Type} (t : List (SftEvent μ)) : List ℤ :=
  t.filterMap (fun e =>
    match e with
    | SftEvent.progressUpdate d => some d
    | _ => none)

/-- Number of records written in a trace. -/
def writeCount {μ : Type} (t : List (SftEvent μ)) : Nat :=
  (t.filter (fun e => decide (SftEvent.kind e = SftEventKind.writeRecord))).length

/-- Number of `/batch` requests issued in a trace. -/
def batchRequestCount {μ : Type} (t : List (SftEvent μ)) : Nat :=
  (t.filter (fun e => decide (SftEvent.kind e = SftEventKind.getBatch))).length

/-! ### Properties of the common-prefix computation -/

/-- The shrink loop only ever shortens its candidate, so its result is a
prefix of the candidate. -/
theorem shrinkPreAux_pre_cand (s : List Char) :
    ∀ (n : Nat) (p : List Char), shrinkPreAux s n p <+: p := by
  intro n
  induction n with
  | zero => intro p; exact List.prefix_rfl
  | succ n ih =>
    intro p
    simp only [shrinkPreAux]
    by_cases h : p.isPrefixOf s
    · rw [if_pos h]
    · rw [if_neg h]
      exact (ih p.dropLast).trans (List.dropLast_prefix p)

/-- With enough fuel, the shrink loop stops at a prefix of `s`. -/
theorem shrinkPreAux_pre_s (s : List Char) :
    ∀ (n : Nat) (p : List Char), p.length ≤ n → shrinkPreAux s n p <+: s := by
  intro n
  induction n with
  | zero =>
    intro p hp
    have hnil : p = [] := List.length_eq_zero.mp (Nat.le_zero.mp hp)
    subst hnil
    exact List.nil_prefix
  | succ n ih =>
    intro p hp
    simp only [shrinkPreAux]
    by_cases h : p.isPrefixOf s
    · rw [if_pos h]
      exact List.isPrefixOf_iff_prefix.mp h
    · rw [if_neg h]
      refine ih p.dropLast ?_
      rw [List.length_dropLast]
      omega

/-- Any common prefix of the candidate and of `s` survives the shrink loop:
the loop result is the longest prefix of the candidate that prefixes `s`. -/
theorem shrinkPreAux_pre_max (s : List Char) :
    ∀ (n : Nat) (p q : List Char), p.length ≤ n → q <+: p → q <+: s →
      q <+: shrinkPreAux s n p := by
  intro n
  induction n with
  | zero =>
    intro p q _ hqp _
    exact hqp
  | succ n ih =>
    intro p q hp hqp hqs
    simp only [shrinkPreAux]
    by_cases h : p.isPrefixOf s
    · rw [if_pos h]
      exact hqp
    · rw [if_neg h]
      have hps : ¬ p <+: s := fun hc => h (List.isPrefixOf_iff_prefix.mpr hc)
      have hqnep : q ≠ p := fun hq => hps (hq ▸ hqs)
      have hlen : q.length < p.length := by
        rcases Nat.lt_or_ge q.length p.length with hl | hl
        · exact hl
        · exact absurd (hqp.eq_of_length (le_antisymm hqp.length_le hl)) hqnep
      have hqd : q <+: p.dropLast := by
        have hq : q = p.take q.length := List.prefix_iff_eq_take.mp hqp
        have h1 : q.length ⊓ (p.length - 1) = q.length := inf_eq_left.mpr (by omega)
        rw [List.prefix_iff_eq_take, List.dropLast_eq_take, List.take_take, h1, ← hq]
      refine ih p.dropLast q ?_ hqd hqs
      rw [List.length_dropLast]
      omega

/-- Unfuelled versions of the three shrink-loop lemmas. -/
theorem shrinkPre_pre_cand (s p : List Char) : shrinkPre s p <+: p :=
  shrinkPreAux_pre_cand s p.length p

/-- The shrink loop stops at a prefix of `s`. -/
theorem shrinkPre_pre_s (s p : List Char) : shrinkPre s p <+: s :=
  shrinkPreAux_pre_s s p.length p le_rfl

/-- Maximality of the shrink loop. -/
theorem shrinkPre_max (s p q : List Char) (hqp : q <+: p) (hqs : q <+: s) :
    q <+: shrinkPre s p :=
  shrinkPreAux_pre_max s p.length p q le_rfl hqp hqs

/-- The fold over the remaining strings yields a common prefix of the
accumulator and of every remaining string. -/
theorem fcp_foldl_pre (rest : List (List Char)) :
    ∀ acc : List Char,
      (rest.foldl (fun pre s => shrinkPre s pre) acc) <+: acc ∧
      ∀ s ∈ rest, (rest.foldl (fun pre s => shrinkPre s pre) acc) <+: s := by
  induction rest with
  | nil =>
    intro acc
    exact ⟨List.prefix_rfl, by simp⟩
  | cons t ts ih =>
    intro acc
    simp only [List.foldl_cons]
    obtain ⟨h1, h2⟩ := ih (shrinkPre t acc)
    refine ⟨h1.trans (shrinkPre_pre_cand t acc), ?_⟩
    intro s hs
    rcases List.mem_cons.mp hs with rfl | hs'
    · exact h1.trans (shrinkPre_pre_s s acc)
    · exact h2 s hs'

/-- The fold over the remaining strings keeps every common prefix. -/
theorem fcp_foldl_max (rest : List (List Char)) :
    ∀ (acc q : List Char), q <+: acc → (∀ s ∈ rest, q <+: s) →
      q <+: rest.foldl (fun pre s => shrinkPre s pre) acc := by
  induction rest with
  | nil =>
    intro acc q hq _
    simpa using hq
  | cons t ts ih =>
    intro acc q hq hall
    simp only [List.foldl_cons]
    exact ih (shrinkPre t acc) q
      (shrinkPre_max t acc q hq (hall t (by simp)))
      (fun s hs => hall s (by simp [hs]))

/-- C4: `find_common_prefix` returns, for every non-empty list of strings, a
string that is a prefix of every string of the list and has maximal length
among all common prefixes; for the empty list it returns the empty string;
and for a list with no shared non-empty prefix it returns the empty string. -/
theorem c4_longest_common_prefix_correct :
    find_common_prefix [] = [] ∧
    ∀ strings : List (List Char), strings ≠ [] →
      (∀ s ∈ strings, find_common_prefix strings <+: s) ∧
      (∀ q : List Char, (∀ s ∈ strings, q <+: s) →
        q.length ≤ ( find_common_prefix strings).length) ∧
      ((∀ q : List Char, q ≠ [] → ¬ ∀ s ∈ strings, q <+: s) →
        find_common_prefix strings = []) := by
  constructor
  · rfl
  · intro strings hne
    match strings, hne with
    | first :: rest, _ =>
      have hall : ∀ s ∈ first :: rest, find_common_prefix (first :: rest) <+: s := by
        intro s hs
        rcases List.mem_cons.mp hs with rfl | hs'
        · exact (fcp_foldl_pre rest s).1
        · exact (fcp_foldl_pre rest first).2 s hs'
      refine ⟨hall, ?_, ?_⟩
      · intro q hq
        have hqr : q <+: find_common_prefix (first :: rest) :=
          fcp_foldl_max rest first q (hq first (by simp))
            (fun s hs => hq s (by simp [hs]))
        exact hqr.length_le
      · intro hno
        by_contra hres
        exact hno ( find_common_prefix (first :: rest)) hres hall

/-- Witness for C4 at the concrete input `["ab", "ac"]`. -/
theorem c4_witness :
    (['a'] : List Char).length ≤
      ( find_common_prefix [['a', 'b'], ['a', 'c']]).length :=
  (c4_longest_common_prefix_correct.2 [['a', 'b'], ['a', 'c']]
    (by decide)).2.1 ['a'] (by decide)

/-! ### Properties of the per-group selection pipeline -/

/-- Auxiliary `Except` computation rules. -/
theorem except_bind_ok {ε α β : Type} (a : α) (f : α → Except ε β) :
    ((Except.ok a : Except ε α) >>= f) = f a := rfl

/-- Binding an error short-circuits. -/
theorem except_bind_error {ε α β : Type} (e : ε) (f : α → Except ε β) :
    ((Except.error e : Except ε α) >>= f) = Except.error e := rfl

/-- The sorted record list is pairwise descending by score, provided the
record builder stores the paired score in the record's score field. -/
theorem sortRecords_pairwise {μ χ : Type} (mk : ℚ → χ → SftRecord μ)
    (hmk : ∀ (sc : ℚ) (x : χ), SftRecord.score (mk sc x) = sc)
    (scores : List ℚ) (chats : List χ) :
    List.Pairwise (fun a b => SftRecord.score b ≤ SftRecord.score a)
      (sortRecords mk scores chats) := by
  have hsorted : List.Pairwise (fun a b : ℚ × χ => b.1 ≤ a.1)
      (List.insertionSort (fun a b => b.1 ≤ a.1) (scores.zip chats)) := by
    haveI : IsTotal (ℚ × χ) (fun a b => b.1 ≤ a.1) := ⟨fun a b => le_total b.1 a.1⟩
    haveI : IsTrans (ℚ × χ) (fun a b => b.1 ≤ a.1) :=
      ⟨fun _ _ _ h1 h2 => le_trans h2 h1⟩
    exact List.sorted_insertionSort _ _
  refine List.Pairwise.map _ ?_ hsorted
  intro a b h
  simpa [hmk] using h

/-- The negative-score filter is a sublist of its input. -/
theorem filterNeg_sublist {μ : Type} (alw : Bool) (l : List (SftRecord μ)) :
    (filterNeg alw l).Sublist l := by
  unfold filterNeg
  by_cases h : alw = true
  · rw [if_pos h]
  · rw [if_neg h]
    exact List.filter_sublist l

/-- With negative scores disallowed, every survivor has positive score. -/
theorem filterNeg_mem {μ : Type} (l : List (SftRecord μ)) (r : SftRecord μ)
    (h : r ∈ filterNeg false l) : 0 < SftRecord.score r := by
  unfold filterNeg at h
  rw [if_neg (by simp)] at h
  simpa using List.of_mem_filter h

/-- The threshold filter is a sublist of its input. -/
theorem filterMinDiff_sublist {μ : Type} (md : ℚ) (scores : List ℚ)
    (l : List (SftRecord μ)) : (filterMinDiff md scores l).Sublist l := by
  unfold filterMinDiff
  by_cases h : 0 < md
  · rw [if_pos h]
    exact List.filter_sublist l
  · rw [if_neg h]

/-- With a positive threshold, every survivor exceeds the group minimum by
more than the threshold. -/
theorem filterMinDiff_mem {μ : Type} (md : ℚ) (scores : List ℚ)
    (l : List (SftRecord μ)) (r : SftRecord μ) (h0 : 0 < md)
    (h : r ∈ filterMinDiff md scores l) :
    md < SftRecord.score r - minScoreOf scores := by
  unfold filterMinDiff at h
  rw [if_pos h0] at h
  simpa using List.of_mem_filter h

/-- The three invariants of the selection pipeline, for any record builder
that stores the paired score. -/
theorem selectChats_props {μ χ : Type} (mk : ℚ → χ → SftRecord μ)
    (hmk : ∀ (sc : ℚ) (x : χ), SftRecord.score (mk sc x) = sc)
    (scores : List ℚ) (chats : List χ) (alw : Bool) (md : ℚ) (n : Nat) :
    List.Pairwise (fun a b => SftRecord.score b ≤ SftRecord.score a)
      (selectChats mk scores chats alw md n) ∧
    (alw = false → ∀ r ∈ selectChats mk scores chats alw md n,
      0 < SftRecord.score r) ∧
    (0 < md → ∀ r ∈ selectChats mk scores chats alw md n,
      md < SftRecord.score r - minScoreOf scores) := by
  unfold selectChats
  refine ⟨?_, ?_, ?_⟩
  · refine List.Pairwise.sublist ?_ (sortRecords_pairwise mk hmk scores chats)
    exact (List.take_sublist _ _).trans
      ((filterMinDiff_sublist md scores _).trans (filterNeg_sublist alw _))
  · intro halw r hr
    subst halw
    have hr2 := (filterMinDiff_sublist md scores _).subset
      (List.mem_of_mem_take hr)
    exact filterNeg_mem _ r hr2
  · intro hmd r hr
    exact filterMinDiff_mem md scores _ r hmd (List.mem_of_mem_take hr)

/-- The selection pipeline never yields more records than the shorter of the
score list and the chat list (Python `zip` truncation). -/
theorem selectChats_length_le {μ χ : Type} (mk : ℚ → χ → SftRecord μ)
    (scores : List ℚ) (chats : List χ) (alw : Bool) (md : ℚ) (n : Nat) :
    (selectChats mk scores chats alw md n).length ≤
      min scores.length chats.length := by
  unfold selectChats
  have h1 : ((filterMinDiff md scores
      (filterNeg alw (sortRecords mk scores chats))).take n).Sublist
      (sortRecords mk scores chats) :=
    (List.take_sublist _ _).trans
      ((filterMinDiff_sublist md scores _).trans (filterNeg_sublist alw _))
  have h2 := h1.length_le
  have h3 : (sortRecords mk scores chats).length =
      min scores.length chats.length := by
    unfold sortRecords
    rw [List.length_map, (List.perm_insertionSort _ _).length_eq,
      List.length_zip]
  omega

/-- C3: for every group and selection criteria, an `ok` result of
`grab_group_data` is sorted by score in descending order; when negative
scores are disallowed, no output entry has score ≤ 0; and when a positive
threshold is configured, every output entry exceeds the group minimum score
(0 for an empty score list, via `minScoreOf`) by more than the threshold. -/
theorem c3_selection_invariants {μ : Type} (tok : List Nat → List Char)
    (g : DataGroup μ) (sm : Bool) (n : Nat) (alw : Bool) (md : ℚ)
    (l : List (SftRecord μ))
    (h : grab_group_data tok g sm n alw md = Except.ok l) :
    List.Pairwise (fun a b => SftRecord.score b ≤ SftRecord.score a) l ∧
    (alw = false → ∀ r ∈ l, 0 < SftRecord.score r) ∧
    (0 < md → ∀ r ∈ l, md < SftRecord.score r - minScoreOf g.scores) := by
  cases sm with
  | true =>
    have hl : Except.ok (selectChats (fun sc m => SftRecord.messages m sc)
        g.scores g.messages alw md n) = Except.ok l := h
    have hl2 := Except.ok.inj hl
    rw [← hl2]
    exact selectChats_props (fun sc m => SftRecord.messages m sc)
      (fun _ _ => rfl) g.scores g.messages alw md n
  | false =>
    unfold grab_group_data at h
    rw [if_neg (by simp)] at h
    cases hm : decodedChats tok g.tokens with
    | error e =>
      rw [hm, except_bind_error] at h
      exact Except.noConfusion h
    | ok chats =>
      rw [hm, except_bind_ok] at h
      have hl2 := Except.ok.inj h
      rw [← hl2]
      exact selectChats_props (fun sc x => SftRecord.textCompletion x.1 x.2 sc)
        (fun _ _ => rfl) g.scores chats alw md n

/-- Witness for C3 at a concrete raw-structure group with a length-matched
score list, negative scores disallowed and threshold 1. -/
theorem c3_witness :
    List.Pairwise (fun a b => SftRecord.score b ≤ SftRecord.score a)
      [SftRecord.messages "b" 3] ∧
    (false = false → ∀ r ∈ [SftRecord.messages "b" 3],
      0 < SftRecord.score r) ∧
    ((0 : ℚ) < 1 → ∀ r ∈ [SftRecord.messages "b" 3],
      (1 : ℚ) < SftRecord.score r -
        minScoreOf (DataGroup.scores (μ := String) ⟨["a", "b", "c"], [], [1, 3, 2]⟩)) :=
  c3_selection_invariants (fun _ => []) ⟨["a", "b", "c"], [], [1, 3, 2]⟩
    true 2 false 1 [SftRecord.messages "b" 3]
    (by
      norm_num [grab_group_data, selectChats, filterMinDiff, filterNeg,
        sortRecords, minScoreOf, List.insertionSort, List.orderedInsert,
        List.filter, List.min?, min_def, decide_eq_true_eq, SftRecord.score])

/-- C2 counterexample: a raw-structure group whose scores list (length 2) is
longer than its messages list (length 1) is processed without any error:
`grab_group_data` returns a record list, refuting that a scores/candidates
length mismatch is a fatal contract error. -/
theorem c2_counterexample :
    (DataGroup.scores (μ := String) ⟨["a"], [], [1, 2]⟩).length ≠
      (DataGroup.messages (μ := String) ⟨["a"], [], [1, 2]⟩).length ∧
    grab_group_data (μ := String) (fun _ => []) ⟨["a"], [], [1, 2]⟩
      true 3 false 0 = Except.ok [SftRecord.messages "a" 1] := by
  decide

/-- C2 (amended): a group whose scores list length differs from its
candidates list length is not rejected; in raw-structure mode
`grab_group_data` always returns a record list, pairing scores with
candidates positionally and truncating to the shorter list (`zip`
semantics), so at most `min (len scores) (len messages)` records are
returned and no error is signalled. -/
theorem c2_amended_zip_truncates {μ : Type} (tok : List Nat → List Char)
    (g : DataGroup μ) (n : Nat) (alw : Bool) (md : ℚ) :
    ∃ l, grab_group_data tok g true n alw md = Except.ok l ∧
      l.length ≤ min g.scores.length g.messages.length := by
  refine ⟨selectChats (fun sc m => SftRecord.messages m sc) g.scores
    g.messages alw md n, rfl, ?_⟩
  exact selectChats_length_le _ _ _ _ _ _

/-! ### Properties of the Python split -/

/-- The split scan never produces an empty list of segments. -/
theorem splitGoAux_ne_nil (sep : List Char) :
    ∀ (n : Nat) (s : List Char), splitGoAux sep n s ≠ [] := by
  intro n
  induction n with
  | zero =>
    intro s
    simp [splitGoAux]
  | succ n ih =>
    intro s
    simp only [splitGoAux]
    by_cases h : sep ≠ [] ∧ sep.isPrefixOf s
    · rw [if_pos h]
      simp
    · rw [if_neg h]
      cases s with
      | nil => simp
      | cons c rest =>
        dsimp only
        cases hrec : splitGoAux sep n rest with
        | nil => simp
        | cons seg segs => simp

/-- With enough fuel, the first segment produced by the split scan is exactly
the text before the first occurrence of the separator. -/
theorem splitGoAux_head (sep : List Char) (hsep : sep ≠ []) :
    ∀ (n : Nat) (s : List Char), s.length ≤ n →
      (splitGoAux sep n s).head? = some (upToNextOcc sep s) := by
  intro n
  induction n with
  | zero =>
    intro s hs
    have hnil : s = [] := List.length_eq_zero.mp (Nat.le_zero.mp hs)
    subst hnil
    simp [splitGoAux, upToNextOcc]
  | succ n ih =>
    intro s hs
    simp only [splitGoAux]
    by_cases h : sep.isPrefixOf s
    · rw [if_pos ⟨hsep, h⟩]
      cases s with
      | nil =>
        exact absurd (List.prefix_nil.mp (List.isPrefixOf_iff_prefix.mp h)) hsep
      | cons c rest =>
        simp [upToNextOcc, h]
    · rw [if_neg (by tauto)]
      cases s with
      | nil => simp [upToNextOcc]
      | cons c rest =>
        dsimp only
        cases hrec : splitGoAux sep n rest with
        | nil => exact absurd hrec (splitGoAux_ne_nil sep n rest)
        | cons seg segs =>
          have hih := ih rest (by simp at hs; omega)
          rw [hrec] at hih
          simp only [List.head?] at hih
          have hseg : seg = upToNextOcc sep rest := by
            injection hih
          simp [upToNextOcc, h, hseg]

/-- What `chat.split(prefix)[1]` actually computes when `prefix` is a
non-empty prefix of `chat`: the segment after the first occurrence of the
prefix, truncated at the next occurrence. -/
theorem splitCompletion_append (pre rest : List Char) (hpre : pre ≠ []) :
    splitCompletion (pre ++ rest) pre = Except.ok (upToNextOcc pre rest) := by
  unfold splitCompletion pySplit
  rw [if_neg hpre, except_bind_ok]
  unfold splitGo
  obtain ⟨c, cs, rfl⟩ : ∃ c cs, pre = c :: cs := by
    cases pre with
    | nil => exact absurd rfl hpre
    | cons c cs => exact ⟨c, cs, rfl⟩
  have hfuel : ((c :: cs) ++ rest).length = (cs.length + rest.length) + 1 := by
    rw [List.length_append, List.length_cons]
    omega
  rw [hfuel]
  simp only [splitGoAux]
  rw [if_pos ⟨hpre, List.isPrefixOf_iff_prefix.mpr (List.prefix_append _ _)⟩]
  rw [List.drop_left]
  unfold pyIndex
  rw [List.get?_cons_succ, List.get?_zero,
    splitGoAux_head (c :: cs) hpre (cs.length + rest.length) rest (by omega)]

/-- C5 (amended): in decoded-text mode, the completion is the segment of the
text after the first occurrence of the group's common prefix, truncated at
the next occurrence of the prefix (Python `split`-on-all-occurrences
semantics) — not the whole remainder after the first occurrence; for the
texts ["The cat sat", "The cat ran"], where the prefix occurs once in each
text, the common prefix is "The cat " and the completions are "sat" and
"ran". -/
theorem c5_amended_split_semantics :
    (∀ (pre rest : List Char), pre ≠ [] →
      splitCompletion (pre ++ rest) pre = Except.ok (upToNextOcc pre rest)) ∧
    grab_group_data (μ := String)
      (fun l => if l = [0] then "The cat sat".toList else "The cat ran".toList)
      ⟨[], [[0], [1]], [2, 1]⟩ false 5 false 0 =
      Except.ok [SftRecord.textCompletion "The cat ".toList "sat".toList 2,
        SftRecord.textCompletion "The cat ".toList "ran".toList 1] :=
  ⟨splitCompletion_append, by decide⟩

/-- Witness for the amended C5 at concrete non-empty strings. -/
theorem c5_witness :
    splitCompletion ("ab".toList ++ "cd".toList) "ab".toList =
      Except.ok (upToNextOcc "ab".toList "cd".toList) :=
  c5_amended_split_semantics.1 "ab".toList "cd".toList (by decide)

/-- C5 counterexample: for the text "The cat sat The cat x", which contains
the common prefix "The cat " twice, the produced completion is "sat " (the
segment up to the second occurrence), not "sat The cat x" (the text with
just the first occurrence of the prefix removed), refuting the claimed split
semantics. -/
theorem c5_counterexample :
    grab_group_data (μ := String)
      (fun l => if l = [0] then "The cat sat The cat x".toList
        else "The cat ran".toList)
      ⟨[], [[0], [1]], [2, 1]⟩ false 5 false 0 =
      Except.ok [SftRecord.textCompletion "The cat ".toList "sat ".toList 2,
        SftRecord.textCompletion "The cat ".toList "ran".toList 1] ∧
    "sat ".toList ≠ "sat The cat x".toList := by
  decide

/-- C6: whenever the token list of a decoded-text-mode group is non-empty and
its decoded texts share no non-empty common prefix (`find_common_prefix`
returns the empty string), `grab_group_data` raises `ValueError` (Python's
`split` with an empty separator) instead of returning records. -/
theorem c6_empty_prefix_value_error {μ : Type} (tok : List Nat → List Char)
    (g : DataGroup μ) (n : Nat) (alw : Bool) (md : ℚ)
    (hne : g.tokens ≠ [])
    (hfcp : find_common_prefix (g.tokens.map tok) = []) :
    grab_group_data tok g false n alw md = Except.error PyErr.valueError := by
  unfold grab_group_data
  rw [if_neg (by simp)]
  have hd : decodedChats tok g.tokens = Except.error PyErr.valueError := by
    show (g.tokens.map tok).mapM (fun chat =>
      ( splitCompletion chat ( find_common_prefix (g.tokens.map tok))).map
        (fun c => ( find_common_prefix (g.tokens.map tok), c))) =
      Except.error PyErr.valueError
    rw [hfcp]
    cases hmap : g.tokens.map tok with
    | nil => exact absurd (List.map_eq_nil_iff.mp hmap) hne
    | cons t ts =>
      rw [List.mapM_cons]
      have hft : (( splitCompletion t []).map
          (fun c => (([] : List Char), c))) = Except.error PyErr.valueError := rfl
      rw [hft, except_bind_error]
  rw [hd, except_bind_error]

/-- Witness for C6 at a concrete group whose decoded texts are "apple" and
"banana". -/
theorem c6_witness :
    grab_group_data (μ := String)
      (fun l => if l = [0] then "apple".toList else "banana".toList)
      ⟨[], [[0], [1]], [2, 1]⟩ false 3 false 0 =
      Except.error PyErr.valueError :=
  c6_empty_prefix_value_error _ _ 3 false 0 (by decide) (by decide)

/-! ### Concrete run scenarios -/

/-- Run configuration of the concrete scenarios: raw-structure mode, target of
5 sequences, overwrite mode. -/
def cfgBase : SftConfig :=
  { group_size := 2
    max_token_len := 2048
    save_messages := true
    save_top_n_per_group := 10
    num_seqs_to_save := 5
    allow_negative_scores := false
    minimum_score_diff_max_min := 0
    append_to_previous := false
    tasks_per_step := 64 }

/-- A batch group from which 3 records are selected. -/
def groupOf3 : DataGroup String := ⟨["a", "b", "c"], [], [1, 1, 1]⟩

/-- A batch group from which 4 records are selected. -/
def groupOf4 : DataGroup String := ⟨["d", "e", "f", "g"], [], [1, 1, 1, 1]⟩

/-- C1 counterexample: with an existing output path and append disabled, the
run's full trace is the reset request, the register request, and then the
configuration error — the reset and registration requests are issued before
the error is raised, refuting that the error precedes all network activity. -/
theorem c1_counterexample :
    ((sft_data_grabber (μ := String) cfgBase true (fun _ => []) []).1).map
        SftEvent.kind =
      [SftEventKind.resetData, SftEventKind.register,
        SftEventKind.valueError] := by
  decide

/-- C1 (amended): whenever the output path exists and `append_to_previous` is
false, `sft_data_grabber` raises the configuration error before opening the
output file and before any batch request — but only after the reset request
and the registration request have been issued: the whole trace is exactly
reset, register, error. -/
theorem c1_amended_error_after_registration {μ : Type} (cfg : SftConfig)
    (tok : List Nat → List Char)
    (responses : List (Option (List (DataGroup μ))))
    (happ : cfg.append_to_previous = false) :
    ((sft_data_grabber cfg true tok responses).1).map SftEvent.kind =
      [SftEventKind.resetData, SftEventKind.register,
        SftEventKind.valueError] := by
  simp [sft_data_grabber, register_to_api, happ, SftEvent.kind]

/-- Witness for the amended C1 at a concrete configuration. -/
theorem c1_witness :
    ((sft_data_grabber (μ := String)
        { group_size := 3, max_token_len := 128, save_messages := false,
          save_top_n_per_group := 1, num_seqs_to_save := 2,
          allow_negative_scores := true, minimum_score_diff_max_min := 0,
          append_to_previous := false, tasks_per_step := 4 }
        true (fun _ => ['x']) [none]).1).map SftEvent.kind =
      [SftEventKind.resetData, SftEventKind.register,
        SftEventKind.valueError] :=
  c1_amended_error_after_registration _ _ _ rfl

/-- C7 counterexample: with target 5 and batches yielding 3 then 4 records,
the reported progress increments are 2 and −2 — the second reported increment
is −2, not the claimed cap of 2, because the code computes the remaining need
after the batch has already been added to the total. -/
theorem c7_counterexample :
    progressDeltas (sft_data_grabber cfgBase false (fun _ => [])
      [some [groupOf3], some [groupOf4]]).1 = [2, -2] ∧
    (progressDeltas (sft_data_grabber cfgBase false (fun _ => [])
      [some [groupOf3], some [groupOf4]]).1).get? 1 ≠ some 2 := by
  decide

/-- C7 (amended): in the run with `num_seqs_to_save = 5` whose batches yield
3 then 4 selected records, the loop stops after the second batch with
`total_count = 7`, all 7 records are written, and exactly 2 batch requests
are issued; the reported progress increment of each iteration is
`min(batch_count, target − total_after_adding_the_batch)`, yielding 2 and −2:
the cap already bites in the first iteration and the second report is
negative. -/
theorem c7_amended_progress_reports :
    (sft_data_grabber cfgBase false (fun _ => [])
      [some [groupOf3], some [groupOf4]]).2 = 7 ∧
    writeCount (sft_data_grabber cfgBase false (fun _ => [])
      [some [groupOf3], some [groupOf4]]).1 = 7 ∧
    batchRequestCount (sft_data_grabber cfgBase false (fun _ => [])
      [some [groupOf3], some [groupOf4]]).1 = 2 ∧
    progressDeltas (sft_data_grabber cfgBase false (fun _ => [])
      [some [groupOf3], some [groupOf4]]).1 = [2, -2] := by
  decide

/-- C8 counterexample: a first response carrying an empty (but non-null)
batch makes `check_for_batch` return immediately with that empty batch,
refuting that the returned value is always a non-empty list of groups. -/
theorem c8_counterexample :
    check_for_batch (μ := String) [some []] =
      ([SftEvent.getBatch], some ([], [])) ∧
    ([] : List (DataGroup String)).length = 0 := by
  decide

/-- C8 (amended): `check_for_batch` returns the first non-null batch of the
response stream — which may be an empty list of groups — and every preceding
null response produces exactly one batch request followed by one 1-unit
sleep and a retry (never a return or an error); the leftover stream is what
follows the answering response. -/
theorem c8_amended_first_nonnull {μ : Type} :
    ∀ (responses : List (Option (List (DataGroup μ))))
      (evs : List (SftEvent μ)) (b : List (DataGroup μ))
      (rest : List (Option (List (DataGroup μ)))),
      check_for_batch responses = (evs, some (b, rest)) →
      ∃ n : Nat,
        responses = List.replicate n none ++ some b :: rest ∧
        evs = (List.replicate n [SftEvent.getBatch, SftEvent.sleepOne]).flatten ++
          [SftEvent.getBatch] := by
  intro responses
  induction responses with
  | nil =>
    intro evs b rest h
    simp [check_for_batch] at h
  | cons r rs ih =>
    intro evs b rest h
    cases r with
    | none =>
      simp only [check_for_batch] at h
      have h1 : SftEvent.getBatch :: SftEvent.sleepOne ::
          (check_for_batch rs).1 = evs := congrArg Prod.fst h
      have h2 : (check_for_batch rs).2 = some (b, rest) := congrArg Prod.snd h
      obtain ⟨n, hr, he⟩ := ih (check_for_batch rs).1 b rest (by rw [← h2])
      refine ⟨n + 1, ?_, ?_⟩
      · rw [List.replicate_succ, List.cons_append, hr]
      · rw [← h1, he]
        simp [List.replicate_succ]
    | some b' =>
      simp only [check_for_batch] at h
      have h1 : [SftEvent.getBatch (μ := μ)] = evs := congrArg Prod.fst h
      have h2 : some (b', rs) = some (b, rest) := congrArg Prod.snd h
      have h3 : b' = b := (Prod.mk.injEq _ _ _ _).mp (Option.some.inj h2) |>.1
      have h4 : rs = rest := (Prod.mk.injEq _ _ _ _).mp (Option.some.inj h2) |>.2
      subst h3
      subst h4
      exact ⟨0, by simp, by simp [← h1]⟩

/-- Witness for the amended C8: one null response, then an answering
response. -/
theorem c8_witness :
    ∃ n : Nat,
      ([none, some []] : List (Option (List (DataGroup String)))) =
        List.replicate n none ++ some [] :: [] ∧
      [SftEvent.getBatch (μ := String), SftEvent.sleepOne, SftEvent.getBatch] =
        (List.replicate n [SftEvent.getBatch, SftEvent.sleepOne]).flatten ++
          [SftEvent.getBatch] :=
  c8_amended_first_nonnull [none, some []]
    [SftEvent.getBatch, SftEvent.sleepOne, SftEvent.getBatch] [] []
    (by decide)

/-- C9: `register_to_api` issues the reset request first and the registration
request second, and the registration body carries
`batch_size = group_size × tasks_per_step` and a `num_steps` field equal to
twice the `num_steps` argument. -/
theorem c9_registration_body (μ : Type) (g m n t : ℤ) :
    ∃ body : RegisterBody,
      register_to_api (μ := μ) g m n t =
        [SftEvent.getResetData, SftEvent.postRegister body] ∧
      body.batch_size = g * t ∧ body.num_steps = 2 * n := by
  refine ⟨_, rfl, rfl, ?_⟩
  exact mul_comm n 2

/-- C10: for every run configuration, `sft_data_grabber` passes
`num_steps = total_count` to `register_to_api` while `total_count` is still
0, so the `num_steps` field of the registration request is 0 (= 0 × 2)
regardless of `num_seqs_to_save`. -/
theorem c10_register_budget_zero {μ : Type} (cfg : SftConfig)
    (pathExists : Bool) (tok : List Nat → List Char)
    (responses : List (Option (List (DataGroup μ)))) :
    ∃ body : RegisterBody,
      ((sft_data_grabber cfg pathExists tok responses).1).get? 1 =
        some (SftEvent.postRegister body) ∧
      body.num_steps = 0 := by
  refine ⟨{ wandb_group := "test"
            wandb_project := "test"
            batch_size := cfg.group_size * cfg.tasks_per_step
            max_token_len := cfg.max_token_len
            checkpoint_dir := "checkpoints"
            save_checkpoint_interval := 10
            starting_step := 0
            num_steps := 0 }, ?_, rfl⟩
  by_cases hc : (pathExists && !cfg.append_to_previous) = true
  · simp [sft_data_grabber, register_to_api, hc]
  · simp [sft_data_grabber, register_to_api, hc]
